import Mathlib

/-!
Verification of the client-side aggregation pipeline of the
E-Commerce Sales Insights dashboard.

The embedding models the data-processing functions of the repository:
the filter engine and facet derivation of app/page.tsx, the day-bucket
aggregation of components/charts/sales-trend.tsx, the product ranking
of the top-products chart, and the regional aggregation of the
regional-sales chart.  Monetary values and quantities are modelled as
exact rationals; JavaScript falsiness of the empty string and of zero
is modelled explicitly at each use site.  Sorting via the stable
comparator-based Array.prototype.sort is modelled by stable insertion
sort with the corresponding total preorder.
-/

namespace SalesDashboard

/-- Canonical sales record after upload.  Field names follow the raw keys the
charts read: both date aliases are kept, the product key used by the ranking
path, and the price key used by the regional chart.  A missing or empty string
field is represented by the empty string and a missing numeric field by zero;
at every use site of the source these behave identically under JavaScript
falsiness, so the identification is faithful. -/
structure SalesRecord where
  orderDate : String
  date : String
  product : String
  category : String
  region : String
  quantity : ℚ
  price : ℚ
  sales : ℚ
  amount : ℚ
  profit : ℚ
deriving DecidableEq, Repr

/-- JavaScript `a || b` on strings: the empty string is falsy. -/
def jsOrS (a b : String) : String := if a = "" then b else a

/-- JavaScript `a || b` on numbers: zero is falsy. -/
def jsOrQ (a b : ℚ) : ℚ := if a = 0 then b else a

/-- Numeric value of a decimal digit character. -/
def digitVal (c : Char) : Int := (c.toNat : Int) - 48

/-- Model of the date-fns parseISO applied to a calendar-date string.  A string
of shape yyyy-MM-dd with a plausible month and day parses to the numeric
encoding y*10000 + m*100 + d, which is strictly monotone in calendar order, so
interval tests agree with timestamp comparison; every other string yields
none, standing for the Invalid Date value (whose timestamp is NaN and fails
every comparison). -/
def parseISO (s : String) : Option Int :=
  match s.toList with
  | [y1, y2, y3, y4, h1, m1, m2, h2, d1, d2] =>
    if y1.isDigit && y2.isDigit && y3.isDigit && y4.isDigit && (h1 == '-') &&
        m1.isDigit && m2.isDigit && (h2 == '-') && d1.isDigit && d2.isDigit then
      let y := 1000 * digitVal y1 + 100 * digitVal y2 + 10 * digitVal y3 + digitVal y4
      let m := 10 * digitVal m1 + digitVal m2
      let d := 10 * digitVal d1 + digitVal d2
      if 1 ≤ m ∧ m ≤ 12 ∧ 1 ≤ d ∧ d ≤ 31 then some (y * 10000 + m * 100 + d) else none
    else none
  | _ => none

/-- The filter state of the page: a date range plus exact-match category and
region constraints.  The field stop embeds the source field named end, which
is a reserved word in Lean.  The empty string means the constraint is unset. -/
structure Filters where
  start : String
  stop : String
  category : String
  region : String
deriving DecidableEq, Repr

/-- The date-range test of filteredData (app/page.tsx lines 101 to 110): it is
applied only when both bounds are non-empty; the record's orderDate and both
bounds are parsed, and membership in the interval is decided by the date-fns
isWithinInterval of version 3 and later, which sorts the two bounds before
comparing, so an inverted range behaves as the swapped range; any unparseable
date among the three makes the comparison fail, excluding the record. -/
def dateTest (f : Filters) (r : SalesRecord) : Bool :=
  if f.start = "" || f.stop = "" then true
  else
    match parseISO r.orderDate, parseISO f.start, parseISO f.stop with
    | some t, some a, some b => decide (min a b ≤ t ∧ t ≤ max a b)
    | _, _, _ => false

/-- The conjunction of the three tests of filteredData: date range, category
and region.  A non-empty category constraint demands exact equality, and
symmetrically for region. -/
def passes (f : Filters) (r : SalesRecord) : Bool :=
  dateTest f r && (f.category == "" || r.category == f.category) &&
    (f.region == "" || r.region == f.region)

/-- The filter engine: filteredData of app/page.tsx lines 99 to 124, a pure
stable filter over the record list. -/
def filterRecords (records : List SalesRecord) (f : Filters) : List SalesRecord :=
  records.filter (passes f)

/-- Swapping the two date-range bounds of a filter spec. -/
def swapRange (f : Filters) : Filters :=
  { f with start := f.stop, stop := f.start }

theorem dateTest_swapRange (f : Filters) (r : SalesRecord) :
    dateTest (swapRange f) r = dateTest f r := by
  unfold dateTest swapRange
  simp only
  by_cases hs : f.start = ""
  · simp [hs]
  by_cases he : f.stop = ""
  · simp [hs, he]
  simp only [hs, he]
  cases parseISO r.orderDate <;> cases parseISO f.start <;> cases parseISO f.stop <;>
    simp [Bool.or_comm]

theorem passes_swapRange (f : Filters) (r : SalesRecord) :
    passes (swapRange f) r = passes f r := by
  unfold passes
  rw [dateTest_swapRange]
  rfl

/-- C4 (amended): the filter engine is invariant under swapping the two
date-range bounds: an inverted range with start strictly after end behaves
exactly like the normalized range with the bounds exchanged, because
isWithinInterval sorts its bounds; in particular the filter never errors, but
an inverted range does not match nothing. -/
theorem filterRecords_swapRange (records : List SalesRecord) (f : Filters) :
    filterRecords records (swapRange f) = filterRecords records f := by
  unfold filterRecords
  exact List.filter_congr fun r _ => passes_swapRange f r

/-- A concrete record dated 2024-01-15, used to exhibit the behavior of an
inverted date range. -/
def invRec : SalesRecord :=
  { orderDate := "2024-01-15", date := "", product := "Widget", category := "A",
    region := "East", quantity := 1, price := 10, sales := 10, amount := 0, profit := 2 }

/-- A filter spec whose start lies strictly after its end. -/
def invSpec : Filters :=
  { start := "2024-02-01", stop := "2024-01-01", category := "", region := "" }

/-- C4 (counterexample): a filter spec with start strictly after end does not
return the empty sequence: the record dated 2024-01-15 lies inside the
normalized interval and passes. -/
theorem filterRecords_inverted_not_empty :
    (∃ a b, parseISO invSpec.start = some a ∧ parseISO invSpec.stop = some b ∧ b < a) ∧
      filterRecords [invRec] invSpec = [invRec] := by
  refine ⟨⟨20240201, 20240101, by decide, by decide, by decide⟩, ?_⟩
  decide

/-- C7: the filter engine is idempotent: filtering an already-filtered list
again with the same spec changes nothing. -/
theorem filterRecords_idempotent (records : List SalesRecord) (f : Filters) :
    filterRecords (filterRecords records f) f = filterRecords records f := by
  simp [filterRecords, List.filter_filter]

/-- C10: when either bound of the date range is the empty string the date test
is skipped entirely, so only the category and region tests are applied. -/
theorem filterRecords_empty_bound (records : List SalesRecord) (f : Filters)
    (h : f.start = "" ∨ f.stop = "") :
    filterRecords records f =
      records.filter (fun r =>
        (f.category == "" || r.category == f.category) &&
          (f.region == "" || r.region == f.region)) := by
  unfold filterRecords
  refine List.filter_congr fun r _ => ?_
  have hd : dateTest f r = true := by
    unfold dateTest
    rcases h with h | h <;> simp [h]
  simp [passes, hd]

/-- C10 witness: with an empty start bound, a concrete list is filtered by the
category and region tests alone. -/
theorem filterRecords_empty_bound_check :
    filterRecords [invRec] { start := "", stop := "2024-01-01", category := "A", region := "" } =
      [invRec] :=
  (filterRecords_empty_bound [invRec]
      { start := "", stop := "2024-01-01", category := "A", region := "" }
      (Or.inl rfl)).trans (by decide)

/-- One step of the JavaScript Set: add x at the end unless already present,
preserving insertion order. -/
def dedupInsert (seen : List String) (x : String) : List String :=
  if x ∈ seen then seen else seen ++ [x]

/-- The forEach loop of the categories and regions useMemo (app/page.tsx lines
87 to 90): walk the records in order, adding each truthy value of the selected
field to the set. -/
def facetFold (get : SalesRecord → String) (acc : List String) :
    List SalesRecord → List String
  | [] => acc
  | r :: rest => facetFold get (if get r = "" then acc else dedupInsert acc (get r)) rest

/-- The distinct non-empty values of a field, in first-occurrence order. -/
def observedValues (get : SalesRecord → String) (records : List SalesRecord) : List String :=
  facetFold get [] records

/-- deriveFacets: the categories and regions useMemo of app/page.tsx lines 83
to 96, computed over the full record set: distinct truthy values, sorted
lexicographically (the stable default string sort is modelled as insertion
sort by the string order). -/
def deriveFacets (records : List SalesRecord) : List String × List String :=
  ((observedValues (fun r => r.category) records).insertionSort (· ≤ ·),
   (observedValues (fun r => r.region) records).insertionSort (· ≤ ·))

/-- The facet sets the page renders for a given filter state.  The useMemo
computing them lists only the data set in its dependency array, so the current
filter selection is not an input of the computation; the filter argument is
recorded here solely to state that invariance. -/
def pageFacets (data : List SalesRecord) (f : Filters) : List String × List String :=
  deriveFacets data

theorem mem_dedupInsert (seen : List String) (x y : String) :
    y ∈ dedupInsert seen x ↔ y ∈ seen ∨ y = x := by
  unfold dedupInsert
  by_cases h : x ∈ seen
  · simp only [if_pos h]
    constructor
    · exact Or.inl
    · rintro (hy | rfl) <;> assumption
  · simp [if_neg h]

theorem nodup_dedupInsert (seen : List String) (x : String) (h : seen.Nodup) :
    (dedupInsert seen x).Nodup := by
  unfold dedupInsert
  by_cases hx : x ∈ seen
  · simpa [hx]
  · rw [if_neg hx]
    simp [List.nodup_append, h, hx]

theorem mem_facetFold (get : SalesRecord → String) (records : List SalesRecord) :
    ∀ acc y, y ∈ facetFold get acc records ↔
      y ∈ acc ∨ (y ≠ "" ∧ ∃ r ∈ records, get r = y) := by
  induction records with
  | nil => simp [facetFold]
  | cons r rest ih =>
    intro acc y
    unfold facetFold
    rw [ih]
    by_cases h : get r = ""
    · simp only [if_pos h]
      constructor
      · rintro (hy | hy)
        · exact Or.inl hy
        · exact Or.inr ⟨hy.1, hy.2.imp fun s hs => ⟨List.mem_cons_of_mem _ hs.1, hs.2⟩⟩
      · rintro (hy | ⟨hne, s, hs, hgs⟩)
        · exact Or.inl hy
        · rcases List.mem_cons.mp hs with rfl | hs'
          · exact absurd (hgs.symm.trans h) hne
          · exact Or.inr ⟨hne, s, hs', hgs⟩
    · simp only [if_neg h, mem_dedupInsert]
      constructor
      · rintro ((hy | rfl) | hy)
        · exact Or.inl hy
        · exact Or.inr ⟨h, r, List.mem_cons_self r rest, rfl⟩
        · exact Or.inr ⟨hy.1, hy.2.imp fun s hs => ⟨List.mem_cons_of_mem _ hs.1, hs.2⟩⟩
      · rintro (hy | ⟨hne, s, hs, hgs⟩)
        · exact Or.inl (Or.inl hy)
        · rcases List.mem_cons.mp hs with rfl | hs'
          · exact Or.inl (Or.inr hgs.symm)
          · exact Or.inr ⟨hne, s, hs', hgs⟩

theorem nodup_facetFold (get : SalesRecord → String) (records : List SalesRecord) :
    ∀ acc, acc.Nodup → (facetFold get acc records).Nodup := by
  induction records with
  | nil => exact fun acc h => h
  | cons r rest ih =>
    intro acc hacc
    unfold facetFold
    by_cases h : get r = ""
    · simpa [h] using ih acc hacc
    · simpa [h] using ih _ (nodup_dedupInsert acc (get r) hacc)

theorem mem_observedValues (get : SalesRecord → String) (records : List SalesRecord)
    (y : String) :
    y ∈ observedValues get records ↔ y ≠ "" ∧ ∃ r ∈ records, get r = y := by
  rw [observedValues, mem_facetFold]
  simp

theorem nodup_observedValues (get : SalesRecord → String) (records : List SalesRecord) :
    (observedValues get records).Nodup :=
  nodup_facetFold get records [] List.nodup_nil

theorem facetSort_spec (l : List String) :
    (l.insertionSort (· ≤ ·)).Sorted (· ≤ ·) ∧
      ((l.insertionSort (· ≤ ·)).Nodup ↔ l.Nodup) ∧
      ∀ y, y ∈ l.insertionSort (· ≤ ·) ↔ y ∈ l :=
  ⟨List.sorted_insertionSort _ l, (List.perm_insertionSort _ l).nodup_iff,
    fun y => (List.perm_insertionSort _ l).mem_iff⟩

/-- C8: the derived facet sets are the sorted, deduplicated, non-empty
category and region values observed in the full unfiltered record set, and the
facet sets shown by the page do not depend on the current filter selection. -/
theorem deriveFacets_spec (records : List SalesRecord) :
    ((deriveFacets records).1.Sorted (· ≤ ·) ∧ (deriveFacets records).1.Nodup ∧
      ∀ c, c ∈ (deriveFacets records).1 ↔ c ≠ "" ∧ ∃ r ∈ records, r.category = c) ∧
    ((deriveFacets records).2.Sorted (· ≤ ·) ∧ (deriveFacets records).2.Nodup ∧
      ∀ c, c ∈ (deriveFacets records).2 ↔ c ≠ "" ∧ ∃ r ∈ records, r.region = c) ∧
    ∀ f g : Filters, pageFacets records f = pageFacets records g := by
  refine ⟨⟨?_, ?_, ?_⟩, ⟨?_, ?_, ?_⟩, fun f g => rfl⟩
  · exact (facetSort_spec _).1
  · exact (facetSort_spec _).2.1.mpr (nodup_observedValues _ records)
  · intro c
    show c ∈ (observedValues (fun r => r.category) records).insertionSort (· ≤ ·) ↔
      c ≠ "" ∧ ∃ r ∈ records, r.category = c
    rw [(facetSort_spec _).2.2, mem_observedValues]
  · exact (facetSort_spec _).1
  · exact (facetSort_spec _).2.1.mpr (nodup_observedValues _ records)
  · intro c
    show c ∈ (observedValues (fun r => r.region) records).insertionSort (· ≤ ·) ↔
      c ≠ "" ∧ ∃ r ∈ records, r.region = c
    rw [(facetSort_spec _).2.2, mem_observedValues]

/-- The sale amount a record contributes in the trend chart: parseFloat of
sales, falling back to amount and then to zero under JavaScript falsiness. -/
def saleAmount (r : SalesRecord) : ℚ := jsOrQ r.sales r.amount

/-- One day bucket of the sales-trend chart. -/
structure DayBucket where
  date : String
  sales : ℚ
  profit : ℚ
  revenue : ℚ
deriving DecidableEq, Repr

/-- Adding one record's amounts into the dailyData object of processData
(components/charts/sales-trend.tsx lines 27 to 39): a fresh key is appended in
insertion order initialised to zeros and then incremented, an existing key has
its sales, profit and revenue fields incremented, revenue by the record's
sales minus profit. -/
def addDay : List DayBucket → String → ℚ → ℚ → List DayBucket
  | [], k, s, p => [⟨k, s, p, s - p⟩]
  | b :: rest, k, s, p =>
    if b.date = k then ⟨b.date, b.sales + s, b.profit + p, b.revenue + (s - p)⟩ :: rest
    else b :: addDay rest k s p

/-- The forEach loop of processData.  A record whose date and orderDate are
both falsy is skipped.  Otherwise the date key is produced by format applied
to the parsed date; format throws a RangeError with message Invalid time value
when the date string does not parse, modelled as the error branch; on a
parseable yyyy-MM-dd string the key is the string itself. -/
def processDayFold : List SalesRecord → List DayBucket → Except String (List DayBucket)
  | [], m => .ok m
  | r :: rest, m =>
    let d := jsOrS r.date r.orderDate
    if d = "" then processDayFold rest m
    else
      match parseISO d with
      | none => .error "Invalid time value"
      | some _ => processDayFold rest (addDay m d (saleAmount r) r.profit)

/-- Sort key of the final sort of processData: the timestamp of the bucket's
date string. -/
def dateVal (s : String) : Int := (parseISO s).getD 0

/-- aggregateByDay: processData of components/charts/sales-trend.tsx lines 13
to 44, grouping records into day buckets and sorting the buckets ascending by
date. -/
def aggregateByDay (records : List SalesRecord) : Except String (List DayBucket) :=
  match processDayFold records [] with
  | .error e => .error e
  | .ok m => .ok (m.insertionSort (fun a b => dateVal a.date ≤ dateVal b.date))

/-- Whether a record makes processData throw: its date field chain is truthy
but does not parse as a date. -/
def badDate (r : SalesRecord) : Prop :=
  jsOrS r.date r.orderDate ≠ "" ∧ parseISO (jsOrS r.date r.orderDate) = none

instance (r : SalesRecord) : Decidable (badDate r) := by
  unfold badDate
  infer_instance

theorem addDay_sales_sum (m : List DayBucket) (k : String) (s p : ℚ) :
    ((addDay m k s p).map DayBucket.sales).sum = (m.map DayBucket.sales).sum + s := by
  induction m with
  | nil => simp [addDay]
  | cons b rest ih =>
    by_cases h : b.date = k
    · simp [addDay, h]
      ring
    · simp [addDay, h, ih]
      ring

theorem addDay_revenue (m : List DayBucket) (k : String) (s p : ℚ)
    (h : ∀ b ∈ m, b.revenue = b.sales - b.profit) :
    ∀ b ∈ addDay m k s p, b.revenue = b.sales - b.profit := by
  induction m with
  | nil =>
    intro b hb
    simp only [addDay, List.mem_singleton] at hb
    subst hb
    rfl
  | cons c rest ih =>
    intro b hb
    by_cases hc : c.date = k
    · simp only [addDay, if_pos hc, List.mem_cons] at hb
      rcases hb with rfl | hb
      · have := h c (List.mem_cons_self c rest)
        simp only
        rw [this]
        ring
      · exact h b (List.mem_cons_of_mem _ hb)
    · simp only [addDay, if_neg hc, List.mem_cons] at hb
      rcases hb with rfl | hb
      · exact h b (List.mem_cons_self b rest)
      · exact ih (fun x hx => h x (List.mem_cons_of_mem _ hx)) b hb

theorem processDayFold_ok (records : List SalesRecord) :
    ∀ m, (∀ r ∈ records, ¬badDate r) →
      ∃ out, processDayFold records m = .ok out ∧
        ((out.map DayBucket.sales).sum =
          (m.map DayBucket.sales).sum +
            ((records.filter fun r => jsOrS r.date r.orderDate ≠ "").map saleAmount).sum) ∧
        ((∀ b ∈ m, b.revenue = b.sales - b.profit) →
          ∀ b ∈ out, b.revenue = b.sales - b.profit) := by
  induction records with
  | nil => exact fun m _ => ⟨m, rfl, by simp, fun h => h⟩
  | cons r rest ih =>
    intro m h
    have hr := h r (List.mem_cons_self r rest)
    have hrest : ∀ x ∈ rest, ¬badDate x := fun x hx => h x (List.mem_cons_of_mem _ hx)
    by_cases hd : jsOrS r.date r.orderDate = ""
    · obtain ⟨out, hout, hsum, hrev⟩ := ih m hrest
      refine ⟨out, ?_, ?_, hrev⟩
      · simpa [processDayFold, hd] using hout
      · rw [hsum]
        simp [List.filter_cons, hd]
    · have hp : (parseISO (jsOrS r.date r.orderDate)).isSome := by
        rcases hps : parseISO (jsOrS r.date r.orderDate) with _ | v
        · exact absurd ⟨hd, hps⟩ hr
        · rfl
      obtain ⟨v, hv⟩ := Option.isSome_iff_exists.mp hp
      obtain ⟨out, hout, hsum, hrev⟩ :=
        ih (addDay m (jsOrS r.date r.orderDate) (saleAmount r) r.profit) hrest
      refine ⟨out, ?_, ?_, ?_⟩
      · simpa [processDayFold, hd, hv] using hout
      · rw [hsum, addDay_sales_sum]
        simp [List.filter_cons, hd]
        ring
      · exact fun hm => hrev (addDay_revenue m _ _ _ hm)

/-- Concrete records exercising both date aliases, the amount fallback and a
repeated day. -/
def demoDay : List SalesRecord :=
  [{ orderDate := "2024-01-02", date := "", product := "A", category := "X",
     region := "East", quantity := 1, price := 5, sales := 5, amount := 0, profit := 1 },
   { orderDate := "", date := "2024-01-01", product := "B", category := "X",
     region := "West", quantity := 2, price := 10, sales := 0, amount := 20, profit := 3 },
   { orderDate := "2024-01-01", date := "", product := "C", category := "Y",
     region := "East", quantity := 1, price := 10, sales := 10, amount := 0, profit := 2 }]

/-- C1: when every record carries a valid date, aggregation succeeds and the
per-bucket sales totals add up to exactly the total sale amount of the input
records: nothing is double-counted and nothing is lost. -/
theorem aggregateByDay_sales_sum (records : List SalesRecord)
    (h : ∀ r ∈ records, (parseISO (jsOrS r.date r.orderDate)).isSome) :
    ∃ buckets, aggregateByDay records = .ok buckets ∧
      (buckets.map DayBucket.sales).sum = (records.map saleAmount).sum := by
  have hnb : ∀ r ∈ records, ¬badDate r := by
    intro r hr hbad
    have hv := h r hr
    rw [hbad.2] at hv
    simp at hv
  obtain ⟨out, hout, hsum, _⟩ := processDayFold_ok records [] hnb
  refine ⟨out.insertionSort (fun a b => dateVal a.date ≤ dateVal b.date), ?_, ?_⟩
  · unfold aggregateByDay
    rw [hout]
  · have hperm := (List.perm_insertionSort
      (fun a b : DayBucket => dateVal a.date ≤ dateVal b.date) out).map DayBucket.sales
    rw [hperm.sum_eq, hsum]
    have hfil : records.filter (fun r => jsOrS r.date r.orderDate ≠ "") = records := by
      refine List.filter_eq_self.mpr fun r hr => ?_
      have := h r hr
      simp only [decide_eq_true_eq]
      intro he
      rw [he] at this
      simp [parseISO] at this
    rw [hfil]
    simp

/-- C1 witness: the concrete three-record list, with two records sharing the
day 2024-01-01, satisfies the valid-date hypothesis and the sales-sum
conservation. -/
theorem aggregateByDay_sales_sum_check :
    ∃ buckets, aggregateByDay demoDay = .ok buckets ∧
      (buckets.map DayBucket.sales).sum = (demoDay.map saleAmount).sum :=
  aggregateByDay_sales_sum demoDay (by decide)

/-- C9: in every bucket that aggregateByDay produces, the revenue field that
the code accumulates from per-record sales minus profit contributions equals
the bucket's total sales minus its total profit, the quantity the spec defines
derivationally per bucket; the two computations agree on every input. -/
theorem aggregateByDay_revenue (records : List SalesRecord) (buckets : List DayBucket)
    (h : aggregateByDay records = .ok buckets) :
    ∀ b ∈ buckets, b.revenue = b.sales - b.profit := by
  unfold aggregateByDay at h
  rcases hps : processDayFold records [] with e | m
  · rw [hps] at h
    cases h
  · rw [hps] at h
    intro b hb
    injection h with h
    subst h
    have hbm : b ∈ m :=
      (List.perm_insertionSort (fun a b : DayBucket => dateVal a.date ≤ dateVal b.date)
        m).mem_iff.mp hb
    clear hb
    revert hbm
    suffices hgen : ∀ recs macc, (∀ c ∈ macc, c.revenue = c.sales - c.profit) →
        processDayFold recs macc = .ok m → b ∈ m → b.revenue = b.sales - b.profit from
      hgen records [] (by simp) hps
    clear hps
    intro recs
    induction recs with
    | nil =>
      intro macc hmacc hok hbm
      injection hok with hok
      subst hok
      exact hmacc b hbm
    | cons r rest ih =>
      intro macc hmacc hok hbm
      by_cases hd : jsOrS r.date r.orderDate = ""
      · rw [show processDayFold (r :: rest) macc = processDayFold rest macc by
          simp [processDayFold, hd]] at hok
        exact ih macc hmacc hok hbm
      · rcases hv : parseISO (jsOrS r.date r.orderDate) with _ | v
        · rw [show processDayFold (r :: rest) macc = .error "Invalid time value" by
            simp [processDayFold, hd, hv]] at hok
          cases hok
        · rw [show processDayFold (r :: rest) macc =
              processDayFold rest (addDay macc (jsOrS r.date r.orderDate)
                (saleAmount r) r.profit) by simp [processDayFold, hd, hv]] at hok
          exact ih _ (addDay_revenue macc _ _ _ hmacc) hok hbm

/-- The concrete bucket list aggregateByDay returns on the demo records. -/
def demoDayBuckets : List DayBucket :=
  [⟨"2024-01-01", 30, 5, 25⟩, ⟨"2024-01-02", 5, 1, 4⟩]

/-- C9 witness: on the demo records the first returned bucket satisfies
revenue equals sales minus profit. -/
theorem aggregateByDay_revenue_check :
    (⟨"2024-01-01", 30, 5, 25⟩ : DayBucket).revenue =
      (⟨"2024-01-01", 30, 5, 25⟩ : DayBucket).sales -
        (⟨"2024-01-01", 30, 5, 25⟩ : DayBucket).profit :=
  aggregateByDay_revenue demoDay demoDayBuckets
    (by
      have p1 : parseISO "2024-01-01" = some 20240101 := by decide
      have p2 : parseISO "2024-01-02" = some 20240102 := by decide
      simp [aggregateByDay, demoDay, processDayFold, jsOrS, saleAmount, jsOrQ, addDay,
        dateVal, demoDayBuckets, p1, p2]
      norm_num)
    ⟨"2024-01-01", 30, 5, 25⟩ (by decide)

/-- A record whose date field is present but not a parseable date. -/
def badDateRecord : SalesRecord :=
  { orderDate := "soon", date := "", product := "A", category := "X",
    region := "East", quantity := 1, price := 5, sales := 5, amount := 0, profit := 1 }

/-- C5 (counterexample): aggregateByDay is not total: on a record whose date
field holds the unparseable string soon, format receives an Invalid Date and
throws, so the aggregation raises instead of returning a value. -/
theorem aggregateByDay_raises :
    aggregateByDay [badDateRecord] = .error "Invalid time value" := by rfl

theorem processDayFold_not_ok (r : SalesRecord) (hbad : badDate r) :
    ∀ (records : List SalesRecord) (macc out), r ∈ records →
      processDayFold records macc ≠ .ok out := by
  intro records
  induction records with
  | nil =>
    intro macc out h
    cases h
  | cons x rest ih =>
    intro macc out hr hok
    rcases List.mem_cons.mp hr with rfl | hr'
    · rw [show processDayFold (r :: rest) macc = .error "Invalid time value" by
        simp [processDayFold, hbad.1, hbad.2]] at hok
      cases hok
    · by_cases hd : jsOrS x.date x.orderDate = ""
      · rw [show processDayFold (x :: rest) macc = processDayFold rest macc by
          simp [processDayFold, hd]] at hok
        exact ih macc out hr' hok
      · rcases hv : parseISO (jsOrS x.date x.orderDate) with _ | v
        · rw [show processDayFold (x :: rest) macc = .error "Invalid time value" by
            simp [processDayFold, hd, hv]] at hok
          cases hok
        · rw [show processDayFold (x :: rest) macc =
              processDayFold rest (addDay macc (jsOrS x.date x.orderDate)
                (saleAmount x) x.profit) by simp [processDayFold, hd, hv]] at hok
          exact ih _ out hr' hok

/-- C5 (amended): aggregateByDay returns a value exactly when no record has a
truthy but unparseable date; records with missing or empty dates are skipped
without error.  The remaining pipeline functions are plain total functions of
their inputs in this development. -/
theorem aggregateByDay_total_iff (records : List SalesRecord) :
    (∃ out, aggregateByDay records = .ok out) ↔ ∀ r ∈ records, ¬badDate r := by
  constructor
  · rintro ⟨out, hout⟩ r hr hbad
    unfold aggregateByDay at hout
    rcases hps : processDayFold records [] with e | m
    · rw [hps] at hout
      cases hout
    · exact processDayFold_not_ok r hbad records [] m hr hps
  · intro h
    obtain ⟨out, hout, _, _⟩ := processDayFold_ok records [] h
    exact ⟨out.insertionSort (fun a b => dateVal a.date ≤ dateVal b.date), by
      unfold aggregateByDay
      rw [hout]⟩

/-- One entry of the product ranking. -/
structure ProductEntry where
  product : String
  quantity : ℚ
  sales : ℚ
deriving DecidableEq, Repr

/-- One step of the reduce of the topProducts useMemo (top-products chart,
src/unnamed/part_000 lines 42 to 55): look for the accumulated entry carrying
the record's product name and add the record's quantity and quantity times
price into it, otherwise push a fresh entry at the end. -/
def updateProduct : List ProductEntry → SalesRecord → List ProductEntry
  | [], r => [⟨r.product, r.quantity, r.quantity * r.price⟩]
  | e :: rest, r =>
    if e.product = r.product then
      ⟨e.product, e.quantity + r.quantity, e.sales + r.quantity * r.price⟩ :: rest
    else e :: updateProduct rest r

/-- The full per-product ranking: grouped entries sorted descending by
quantity with the stable sort (part_000 line 56). -/
def productRanking (records : List SalesRecord) : List ProductEntry :=
  (records.foldl updateProduct []).insertionSort (fun a b => b.quantity ≤ a.quantity)

/-- topProducts: the ranking truncated by slice to the caller's display limit
(part_000 line 57; the source passes 5 on constrained displays and 10
otherwise).  The constrained-display reversal of line 59 is a presentation
step applied after this function. -/
def topProducts (records : List SalesRecord) (limit : Nat) : List ProductEntry :=
  (productRanking records).take limit

/-- C3: topProducts returns at most limit entries, sorted descending by the
per-product quantity sum, and the returned entries form a prefix of the full
per-product descending ranking. -/
theorem topProducts_spec (records : List SalesRecord) (limit : Nat) :
    (topProducts records limit).length ≤ limit ∧
      (topProducts records limit).Sorted (fun a b => b.quantity ≤ a.quantity) ∧
      ∃ rest, topProducts records limit ++ rest = productRanking records := by
  refine ⟨?_, ?_, ⟨(productRanking records).drop limit, List.take_append_drop _ _⟩⟩
  · rw [topProducts, List.length_take]
    exact min_le_left _ _
  · have hs : (productRanking records).Sorted (fun a b => b.quantity ≤ a.quantity) := by
      haveI : IsTotal ProductEntry (fun a b => b.quantity ≤ a.quantity) :=
        ⟨fun a b => le_total b.quantity a.quantity⟩
      haveI : IsTrans ProductEntry (fun a b => b.quantity ≤ a.quantity) :=
        ⟨fun _ _ _ h1 h2 => le_trans h2 h1⟩
      exact List.sorted_insertionSort _ _
    exact hs.sublist (List.take_sublist _ _)

/-- One slice of the regional pie chart. -/
structure RegionEntry where
  name : String
  value : ℚ
deriving DecidableEq, Repr

/-- Rounding to two decimal places: Number(x.toFixed(2)).  The ECMAScript
toFixed picks the numerator closest to the value, the larger one on a tie,
which on exact rationals is the floor of 100 x plus one half. -/
def round2 (x : ℚ) : ℚ := (round (100 * x) : ℤ) / 100

/-- One step of the regionMap reduce (app/page.tsx lines 575 to 582): the key
is the record's region with falsy coerced to Unknown, accumulating price
times quantity, fresh keys appended in insertion order. -/
def addRegion : List (String × ℚ) → SalesRecord → List (String × ℚ)
  | [], r => [(jsOrS r.region "Unknown", r.price * r.quantity)]
  | e :: rest, r =>
    if e.1 = jsOrS r.region "Unknown" then (e.1, e.2 + r.price * r.quantity) :: rest
    else e :: addRegion rest r

/-- The per-region totals in first-encounter order, one entry per distinct
region key. -/
def regionTotals (records : List SalesRecord) : List (String × ℚ) :=
  records.foldl addRegion []

/-- The entries of Object.entries mapped to name and two-decimal value and
sorted descending by value (app/page.tsx lines 585 to 590). -/
def sortedRegionData (records : List SalesRecord) : List RegionEntry :=
  ((regionTotals records).map (fun p => ⟨p.1, round2 p.2⟩)).insertionSort
    (fun a b => b.value ≤ a.value)

/-- aggregateByRegion: the chartData useMemo of RegionalSales (app/page.tsx
lines 572 to 605).  On a constrained display with more than five groups the
top four by rank are kept and the rest collapse into one synthetic Other entry
holding their rounded sum. -/
def aggregateByRegion (records : List SalesRecord) (isMobile : Bool) : List RegionEntry :=
  let sorted := sortedRegionData records
  if isMobile ∧ 5 < sorted.length then
    sorted.take 4 ++ [⟨"Other", round2 (((sorted.drop 4).map RegionEntry.value).sum)⟩]
  else sorted

/-- A rational is a whole number of cents. -/
def IsCent (x : ℚ) : Prop := ∃ k : ℤ, x = (k : ℚ) / 100

theorem isCent_round2 (x : ℚ) : IsCent (round2 x) := ⟨round (100 * x), rfl⟩

theorem IsCent.add {a b : ℚ} (ha : IsCent a) (hb : IsCent b) : IsCent (a + b) := by
  obtain ⟨j, rfl⟩ := ha
  obtain ⟨k, rfl⟩ := hb
  exact ⟨j + k, by push_cast; ring⟩

theorem IsCent.round2_eq {x : ℚ} (h : IsCent x) : round2 x = x := by
  obtain ⟨k, rfl⟩ := h
  unfold round2
  have h100 : (100 : ℚ) * ((k : ℚ) / 100) = (k : ℚ) := by
    field_simp
  rw [h100, round_intCast]

theorem isCent_sum (l : List ℚ) (h : ∀ x ∈ l, IsCent x) : IsCent l.sum := by
  induction l with
  | nil => exact ⟨0, by simp⟩
  | cons x rest ih =>
    rw [List.sum_cons]
    exact (h x (List.mem_cons_self x rest)).add
      (ih fun y hy => h y (List.mem_cons_of_mem _ hy))

theorem isCent_sortedRegionData (records : List SalesRecord) :
    ∀ b ∈ sortedRegionData records, IsCent b.value := by
  intro b hb
  unfold sortedRegionData at hb
  have hb' := (List.perm_insertionSort
    (fun a b : RegionEntry => b.value ≤ a.value) _).mem_iff.mp hb
  obtain ⟨p, _, rfl⟩ := List.mem_map.mp hb'
  exact isCent_round2 p.2

theorem addRegion_sum (m : List (String × ℚ)) (r : SalesRecord) :
    ((addRegion m r).map Prod.snd).sum = (m.map Prod.snd).sum + r.price * r.quantity := by
  induction m with
  | nil => simp [addRegion]
  | cons e rest ih =>
    by_cases h : e.1 = jsOrS r.region "Unknown"
    · simp [addRegion, h]
      ring
    · simp [addRegion, h, ih]
      ring

theorem regionTotals_sum (records : List SalesRecord) :
    ((regionTotals records).map Prod.snd).sum =
      (records.map fun r => r.price * r.quantity).sum := by
  unfold regionTotals
  suffices hgen : ∀ acc : List (String × ℚ),
      ((records.foldl addRegion acc).map Prod.snd).sum =
        (acc.map Prod.snd).sum + (records.map fun r => r.price * r.quantity).sum by
    simpa using hgen []
  induction records with
  | nil => simp
  | cons r rest ih =>
    intro acc
    rw [List.foldl_cons, ih (addRegion acc r), addRegion_sum]
    simp
    ring

theorem sortedRegionData_sum (records : List SalesRecord) :
    ((sortedRegionData records).map RegionEntry.value).sum =
      ((regionTotals records).map fun p => round2 p.2).sum := by
  unfold sortedRegionData
  have hperm := (List.perm_insertionSort
    (fun a b : RegionEntry => b.value ≤ a.value)
    ((regionTotals records).map (fun p => ⟨p.1, round2 p.2⟩))).map RegionEntry.value
  rw [hperm.sum_eq, List.map_map]
  rfl

theorem length_sortedRegionData (records : List SalesRecord) :
    (sortedRegionData records).length = (regionTotals records).length := by
  unfold sortedRegionData
  rw [List.length_insertionSort, List.length_map]

theorem aggregateByRegion_desktop (records : List SalesRecord) :
    aggregateByRegion records false = sortedRegionData records := by
  simp [aggregateByRegion]

/-- C2 (amended): grouping by region loses nothing: the per-region totals sum
exactly to the records' price times quantity total; the values the chart
shows before collapsing sum to the per-region rounded totals, which equals
the exact total precisely when every region total is a whole number of cents;
and the Other collapsing preserves the displayed sum exactly. -/
theorem aggregateByRegion_sum (records : List SalesRecord) :
    ((regionTotals records).map Prod.snd).sum =
        (records.map fun r => r.price * r.quantity).sum ∧
      ((aggregateByRegion records false).map RegionEntry.value).sum =
        ((regionTotals records).map fun p => round2 p.2).sum ∧
      ((aggregateByRegion records true).map RegionEntry.value).sum =
        ((aggregateByRegion records false).map RegionEntry.value).sum ∧
      ((∀ p ∈ regionTotals records, round2 p.2 = p.2) →
        ((aggregateByRegion records false).map RegionEntry.value).sum =
          (records.map fun r => r.price * r.quantity).sum) := by
  have hb : ((aggregateByRegion records false).map RegionEntry.value).sum =
      ((regionTotals records).map fun p => round2 p.2).sum := by
    rw [aggregateByRegion_desktop, sortedRegionData_sum]
  refine ⟨regionTotals_sum records, hb, ?_, ?_⟩
  · by_cases hlen : 5 < (sortedRegionData records).length
    · have heq : aggregateByRegion records true =
          (sortedRegionData records).take 4 ++
            [⟨"Other", round2 ((((sortedRegionData records).drop 4).map
              RegionEntry.value).sum)⟩] := by
        simp [aggregateByRegion, hlen]
      have hcent : round2 ((((sortedRegionData records).drop 4).map
          RegionEntry.value).sum) =
          (((sortedRegionData records).drop 4).map RegionEntry.value).sum := by
        refine IsCent.round2_eq (isCent_sum _ ?_)
        intro x hx
        obtain ⟨b, hb', rfl⟩ := List.mem_map.mp hx
        exact isCent_sortedRegionData records b
          ((List.drop_sublist _ _).mem hb')
      rw [heq, aggregateByRegion_desktop]
      rw [List.map_append, List.sum_append, hcent]
      simp only [List.map_cons, List.map_nil, List.sum_cons, List.sum_nil, add_zero]
      rw [← List.sum_append, ← List.map_append, List.take_append_drop]
    · have heq : aggregateByRegion records true = sortedRegionData records := by
        simp [aggregateByRegion, hlen]
      rw [heq, aggregateByRegion_desktop]
  · intro h
    rw [hb, List.map_congr_left fun p hp => h p hp]
    exact regionTotals_sum records

/-- C6: on a constrained display with more than five distinct region groups
the output has exactly five entries: the top four of the descending-sorted
groups in rank order followed by one synthetic Other entry holding exactly
the sum of all remaining groups' displayed values; the collapse acts on rank
position after sorting, not on any value threshold. -/
theorem aggregateByRegion_collapse (records : List SalesRecord)
    (h : 5 < (regionTotals records).length) :
    (aggregateByRegion records true).length = 5 ∧
      (sortedRegionData records).Sorted (fun a b => b.value ≤ a.value) ∧
      aggregateByRegion records true =
        (sortedRegionData records).take 4 ++
          [⟨"Other", (((sortedRegionData records).drop 4).map RegionEntry.value).sum⟩] := by
  have hlen : 5 < (sortedRegionData records).length := by
    rw [length_sortedRegionData]
    exact h
  have hcent : round2 ((((sortedRegionData records).drop 4).map
      RegionEntry.value).sum) =
      (((sortedRegionData records).drop 4).map RegionEntry.value).sum := by
    refine IsCent.round2_eq (isCent_sum _ ?_)
    intro x hx
    obtain ⟨b, hb', rfl⟩ := List.mem_map.mp hx
    exact isCent_sortedRegionData records b ((List.drop_sublist _ _).mem hb')
  have heq : aggregateByRegion records true =
      (sortedRegionData records).take 4 ++
        [⟨"Other", (((sortedRegionData records).drop 4).map RegionEntry.value).sum⟩] := by
    rw [show aggregateByRegion records true =
        (sortedRegionData records).take 4 ++
          [⟨"Other", round2 ((((sortedRegionData records).drop 4).map
            RegionEntry.value).sum)⟩] by simp [aggregateByRegion, hlen], hcent]
  refine ⟨?_, ?_, heq⟩
  · rw [heq]
    rw [List.length_append, List.length_take]
    have h4 : 4 ≤ (sortedRegionData records).length := le_of_lt (lt_trans (by norm_num) hlen)
    simp [min_eq_left h4]
  · haveI : IsTotal RegionEntry (fun a b => b.value ≤ a.value) :=
      ⟨fun a b => le_total b.value a.value⟩
    haveI : IsTrans RegionEntry (fun a b => b.value ≤ a.value) :=
      ⟨fun _ _ _ h1 h2 => le_trans h2 h1⟩
    exact List.sorted_insertionSort _ _

/-- A record whose line total is a tenth of a cent, below the displayed
resolution. -/
def tinyRec : SalesRecord :=
  { orderDate := "2024-01-01", date := "", product := "A", category := "X",
    region := "East", quantity := 1, price := 1/1000, sales := 0, amount := 0, profit := 0 }

/-- C2 (counterexample): because each region value is rounded to two decimals
before output, the sum of the output values does not equal the sum of price
times quantity over the records: a single record with line total one
thousandth rounds to a displayed zero. -/
theorem aggregateByRegion_rounding_cex :
    ((aggregateByRegion [tinyRec] false).map RegionEntry.value).sum ≠
      ([tinyRec].map fun r => r.price * r.quantity).sum := by
  have h1 : round ((1:ℚ)/10) = 0 := by
    rw [round_eq, show (1:ℚ)/10 + 1/2 = 3/5 by norm_num,
      Int.floor_eq_zero_iff]
    rw [Set.mem_Ico]
    constructor <;> norm_num
  rw [aggregateByRegion_desktop]
  simp only [sortedRegionData, regionTotals, addRegion, jsOrS, tinyRec, round2]
  norm_num [h1]

/-- Records whose region totals are whole currency amounts, so no rounding
loss occurs. -/
def demoRegion : List SalesRecord :=
  [{ orderDate := "2024-01-01", date := "", product := "A", category := "X",
     region := "East", quantity := 1, price := 100, sales := 0, amount := 0, profit := 0 },
   { orderDate := "2024-01-02", date := "", product := "B", category := "X",
     region := "East", quantity := 1, price := 50, sales := 0, amount := 0, profit := 0 },
   { orderDate := "2024-01-03", date := "", product := "C", category := "Y",
     region := "West", quantity := 2, price := 30, sales := 0, amount := 0, profit := 0 }]

/-- C2 witness: on the demo records, East 100 plus 50 and West 60, every
region total is a whole number of cents and the output values sum to the
exact price-times-quantity total. -/
theorem aggregateByRegion_sum_check :
    ((aggregateByRegion demoRegion false).map RegionEntry.value).sum =
      (demoRegion.map fun r => r.price * r.quantity).sum :=
  (aggregateByRegion_sum demoRegion).2.2.2 (by
    intro p hp
    simp [regionTotals, addRegion, jsOrS, demoRegion] at hp
    rcases hp with rfl | rfl
    · exact IsCent.round2_eq ⟨15000, by norm_num⟩
    · exact IsCent.round2_eq ⟨6000, by norm_num⟩)

/-- Six records in six distinct regions. -/
def demo6 : List SalesRecord :=
  [{ orderDate := "2024-01-01", date := "", product := "A", category := "X",
     region := "R1", quantity := 1, price := 10, sales := 0, amount := 0, profit := 0 },
   { orderDate := "2024-01-01", date := "", product := "B", category := "X",
     region := "R2", quantity := 1, price := 20, sales := 0, amount := 0, profit := 0 },
   { orderDate := "2024-01-01", date := "", product := "C", category := "X",
     region := "R3", quantity := 1, price := 30, sales := 0, amount := 0, profit := 0 },
   { orderDate := "2024-01-01", date := "", product := "D", category := "X",
     region := "R4", quantity := 1, price := 40, sales := 0, amount := 0, profit := 0 },
   { orderDate := "2024-01-01", date := "", product := "E", category := "X",
     region := "R5", quantity := 1, price := 50, sales := 0, amount := 0, profit := 0 },
   { orderDate := "2024-01-01", date := "", product := "F", category := "X",
     region := "R6", quantity := 1, price := 60, sales := 0, amount := 0, profit := 0 }]

/-- C6 witness: with six distinct regions on a constrained display the chart
shows exactly five entries. -/
theorem aggregateByRegion_collapse_check :
    (aggregateByRegion demo6 true).length = 5 :=
  (aggregateByRegion_collapse demo6 (by simp [regionTotals, addRegion, jsOrS, demo6])).1

end SalesDashboard
